import Mathlib

/-!
Verification of the pagination, token-extraction, chunking and batch-driver
logic of `hotel_fetch.py` (repository DimseBoms/HotelFetch).

The Python source is shallowly embedded: Python dicts become association
lists with insert-or-replace-first semantics, `range` is embedded via its
documented closed form, fallible steps (regex misses, `max` of an empty
list, raised exceptions) become `Option` or `Except` values, and the
unordered arrival of concurrently fetched pages is made explicit by
passing an arrival order that is a permutation of the dispatched requests.
The file first gives all definitions, then the theorems about them.
-/

set_option maxHeartbeats 1000000

namespace HotelFetch

/-! ## Python dict model

A Python dict is modelled as an association list with `String` keys.
Assignment `d[k] = v` replaces the value at the first entry holding `k`
(keys are unique in a real dict) and otherwise appends a fresh entry at
the end, matching insertion-order semantics.  `d.update(items)` performs
one assignment per item, in item order. -/

/-- Lookup `d[k]` in the dict model: the value at the first entry with key `k`. -/
def lookupD {V : Type} (d : List (String × V)) (k : String) : Option V :=
  match d with
  | [] => none
  | p :: rest => if p.1 == k then some p.2 else lookupD rest k

/-- Assignment `d[k] = v` in the dict model: replace the first entry with key
`k` in place, or append a fresh entry at the end. -/
def dictInsert {V : Type} (d : List (String × V)) (k : String) (v : V) :
    List (String × V) :=
  match d with
  | [] => [(k, v)]
  | p :: rest => if p.1 == k then (k, v) :: rest else p :: dictInsert rest k v

/-- Python `d.update(items)`: one assignment per key-value pair, in order. -/
def dictUpdate {V : Type} (d : List (String × V)) (items : List (String × V)) :
    List (String × V) :=
  items.foldl (fun acc p => dictInsert acc p.1 p.2) d

/-- Value assigned to key `k` by the last item of a page holding `k`, if any.
This is the value `k` ends up with after a dict is updated with the page. -/
def pageLast {V : Type} (k : String) : List (String × V) → Option V
  | [] => none
  | q :: rest =>
    match pageLast k rest with
    | some w => some w
    | none => if q.1 == k then some q.2 else none

/-! ## Python range -/

/-- Ceiling division on naturals: `ceilDiv a b = ⌈a / b⌉` for `b > 0`. -/
def ceilDiv (a b : Nat) : Nat := (a + b - 1) / b

/-- Python `range(start, stop, step)` for a positive step: the sequence
`start + step * i` for `0 ≤ i < ceil((stop - start) / step)`, the documented
closed form of a CPython range. -/
def pythonRange (start stop step : Nat) : List Nat :=
  (List.range (ceilDiv (stop - start) step)).map (fun i => start + step * i)

/-! ## Search-page scraping (`parse_search_total_results`, `parse_search_page`,
`scrape_search`, source lines 47-110)

The HTML selector layer is external; what the source keeps is: the text of
the h1 heading of the first page, the list of `(url, preview)` pairs that
the property cards of each page produce, and the total-results count that
drives the follow-up offsets `range(25, total_results, 25)`. -/

/-- Comma character, written via its code point. -/
def commaChar : Char := Char.ofNat 44

/-- Numeric value of a digit string (as produced by `int(...)` on a match). -/
def digitsToNat (l : List Char) : Nat :=
  l.foldl (fun n c => n * 10 + (c.toNat - 48)) 0

/-- Longest run of digits and commas at the front of the text: the greedy
match of the regex class `[\d,]+`. -/
def countRun (l : List Char) : List Char :=
  l.takeWhile (fun c => c.isDigit || c == commaChar)

def propertiesMarker : List Char := " properties found".toList

/-- First match of the regex `([\d,]+) properties found` over the heading
text, scanning start positions left to right; returns the captured group. -/
def findCount : List Char → Option (List Char)
  | [] => none
  | c :: rest =>
    let run := countRun (c :: rest)
    if !run.isEmpty && propertiesMarker.isPrefixOf ((c :: rest).drop run.length)
    then some run
    else findCount rest

/-- Source lines 47-54: parse the total result count from the first-page
heading, then cap it at 50 hotels per city.  A missing marker raises
(IndexError on the `[0]` indexing), modelled as `none`. -/
def parse_search_total_results (h1 : List Char) : Option Nat :=
  (findCount h1).map fun ds =>
    if digitsToNat (ds.filter (fun c => c ≠ commaChar)) > 50 then 50
    else digitsToNat (ds.filter (fun c => c ≠ commaChar))

/-- Source lines 68-81: `parse_search_page` accumulates the property cards of
one page into a fresh dict keyed by hotel url. -/
def parse_search_page {V : Type} (items : List (String × V)) : List (String × V) :=
  dictUpdate [] items

/-- Follow-up page offsets of `scrape_search`: `range(25, total_results, 25)`
(source line 106). -/
def searchOffsets (total_results : Nat) : List Nat :=
  pythonRange 25 total_results 25

/-- The page data a search query can yield: the first-page heading text, the
first-page property cards, and the cards of the page fetched at any offset. -/
structure SearchPageData (V : Type) where
  firstH1 : List Char
  firstPage : List (String × V)
  pageAt : Nat → List (String × V)

/-- Merge step of `scrape_search` (source lines 108-109): starting from the
first-page previews, `hotel_previews.update(parse_search_page(result))` once
per concurrently fetched page, in the order results arrive. -/
def scrape_search_from {V : Type} (first : List (String × V))
    (pages : List (List (String × V))) : List (String × V) :=
  pages.foldl (fun acc page => dictUpdate acc (parse_search_page page)) (parse_search_page first)

/-- Source lines 84-110: scrape the first page, parse the (capped) total,
request the pages at `searchOffsets total` concurrently and merge them as
they arrive.  `arrival` is the completion order of the concurrent fetches,
a permutation of `searchOffsets total`. -/
def scrape_search {V : Type} (f : SearchPageData V) (arrival : List Nat) :
    Option (List (String × V)) :=
  match parse_search_total_results f.firstH1 with
  | none => none
  | some _total_results =>
    some (scrape_search_from f.firstPage (arrival.map f.pageAt))

/-! ## Session-token extraction (source lines 161-164)

Each token is the first match of a regex of shape `marker\s*'(.+?)'` over the
raw page body (`b_csrf_token:`, `b_aid:`, `b_sid:`).  The lazy group takes at
least one character and stops at the next single quote; a dot never crosses a
newline.  An absent pattern makes the `[0]` indexing raise, which the spec
names `TokenNotFoundError`; the embedding returns that error value. -/

def quoteChar : Char := Char.ofNat 39

def newlineChar : Char := Char.ofNat 10

/-- The Python regex class `\s`: space, tab, newline, carriage return,
vertical tab, form feed. -/
def pyIsSpace (c : Char) : Bool :=
  c == Char.ofNat 32 || c == Char.ofNat 9 || c == Char.ofNat 10 ||
  c == Char.ofNat 13 || c == Char.ofNat 11 || c == Char.ofNat 12

/-- Characters up to (excluding) the next single quote; fails if a newline or
the end of input comes first. -/
def scanBody : List Char → Option (List Char)
  | [] => none
  | c :: rest =>
    if c == quoteChar then some []
    else if c == newlineChar then none
    else (scanBody rest).map (fun l => c :: l)

/-- The lazy group `(.+?)` followed by a closing quote: at least one non-newline
character, then everything up to the next quote. -/
def matchGroup : List Char → Option (List Char)
  | [] => none
  | c :: rest =>
    if c == newlineChar then none else (scanBody rest).map (fun l => c :: l)

/-- Match `marker\s*'(.+?)'` at the current position of the body. -/
def matchAt (marker body : List Char) : Option (List Char) :=
  if marker.isPrefixOf body then
    match (body.drop marker.length).dropWhile pyIsSpace with
    | [] => none
    | c :: tail => if c == quoteChar then matchGroup tail else none
  else none

/-- First match of `marker\s*'(.+?)'` over the body, scanning start positions
left to right, as `re.findall(...)[0]` would return it. -/
def findTok (marker : List Char) : List Char → Option (List Char)
  | [] => none
  | c :: rest =>
    match matchAt marker (c :: rest) with
    | some cap => some cap
    | none => findTok marker rest

def csrfMarker : List Char := "b_csrf_token:".toList

def aidMarker : List Char := "b_aid:".toList

def sidMarker : List Char := "b_sid:".toList

/-- The three continuation tokens a detail page yields. -/
structure SessionTokens where
  csrf_token : List Char
  aid : List Char
  sid : List Char
deriving DecidableEq

/-- Source lines 162-164: extract the three secret tokens from the raw body,
in source order; the first missing pattern aborts the extraction. -/
def extractTokens (body : List Char) : Except String SessionTokens :=
  match findTok csrfMarker body with
  | none => .error "TokenNotFoundError"
  | some c =>
    match findTok aidMarker body with
    | none => .error "TokenNotFoundError"
    | some a =>
      match findTok sidMarker body with
      | none => .error "TokenNotFoundError"
      | some s => .ok ⟨c, a, s⟩

/-! ## Review scraping (`scrape_reviews`, source lines 242-267) -/

/-- A review-list request, reduced to the fields that vary: the page size
(`rows`) and the `offset` parameter. -/
structure ReviewUrl where
  rows : Nat
  offset : Nat
deriving DecidableEq

/-- Source lines 245-258: `create_review_url(page, page_size=25)` requests
`rows = page_size` items at `offset = page * page_size`. -/
def create_review_url (page : Nat) (page_size : Nat := 25) : ReviewUrl :=
  ⟨page_size, page * page_size⟩

/-- Python `max` over a list of naturals; raises ValueError on an empty list,
modelled as `none`. -/
def pythonMaxNat (l : List Nat) : Option Nat :=
  match l with
  | [] => none
  | x :: xs => some (xs.foldl max x)

/-- Follow-up review pages: `range(2, total_pages + 1)` (source line 263). -/
def scrape_reviews_pages (total_pages : Nat) : List Nat :=
  pythonRange 2 (total_pages + 1) 1

/-- All requests `scrape_reviews` issues once the first page reported
`total_pages`: the first fetch at page 1, then one per follow-up page. -/
def scrape_reviews_requests (total_pages : Nat) : List ReviewUrl :=
  create_review_url 1 :: (scrape_reviews_pages total_pages).map (fun page => create_review_url page)

/-- The review data a hotel can yield: the page-number markers of the first
page pagination UI, the parsed reviews of the first page, and the parsed
reviews of the page fetched by any later request. -/
structure ReviewFetch (R : Type) where
  firstMarkers : List Nat
  firstReviews : List R
  reviewsAt : ReviewUrl → List R

/-- Source lines 242-267: fetch page 1, take the max of the listed page
numbers as the page count, fetch pages 2..total_pages concurrently and extend
the review list with each page. -/
def scrape_reviews {R : Type} (f : ReviewFetch R) : Option (List R) :=
  match pythonMaxNat f.firstMarkers with
  | none => none
  | some total_pages =>
    some (((scrape_reviews_pages total_pages).map (fun page => create_review_url page)).foldl
      (fun acc u => acc ++ f.reviewsAt u) f.firstReviews)

/-! ## Chunked drilling (`drill_listings`, `scrape_hotels`, source lines
150-206 and 282-316) -/

/-- Source lines 285-287: `[urls_list[i:i+5] for i in range(0, len(urls_list), 5)]`. -/
def create_nested_list {α : Type} (urls_list : List α) : List (List α) :=
  (pythonRange 0 urls_list.length 5).map (fun i => (urls_list.drop i).take 5)

/-- Source lines 150-206: `asyncio.gather` returns one result per input url,
in input order, whatever order the concurrent fetches complete in; the
per-url work is abstracted as `scrape_hotel`. -/
def scrape_hotels {H : Type} (urls : List String) (scrape_hotel : String → H) : List H :=
  urls.map scrape_hotel

/-- Source lines 282-316: extract the urls of the listing dict, chunk them in
groups of 5, drill the chunks sequentially and flatten the per-chunk results
into one list. -/
def drill_listings {H V : Type} (hotel_listings : List (String × V))
    (scrape_hotel : String → H) : List H :=
  ((create_nested_list (hotel_listings.map Prod.fst)).map
    (fun nested_list => scrape_hotels nested_list scrape_hotel)).flatten

/-! ## Batch driver (`run`, source lines 345-368)

State: the in-memory `final_result` nested dict, the list of snapshots
written to the per-run result file (one full-structure dump after every
hotel append), the list of snapshots written to `final_result.json` (one
after each country), and the printed per-city failure diagnostics. -/

abbrev CityMap (H : Type) := List (String × List H)

abbrev BatchResult (H : Type) := List (String × CityMap H)

/-- Read `final_result[country]`. -/
def brGet {H : Type} (fr : BatchResult H) (country : String) : CityMap H :=
  (lookupD fr country).getD []

/-- Python `final_result[country][city] = l`. -/
def brSetCity {H : Type} (fr : BatchResult H) (country city : String)
    (l : List H) : BatchResult H :=
  dictInsert fr country (dictInsert (brGet fr country) city l)

/-- Python `final_result[country][city].append(h)`. -/
def brAppendHotel {H : Type} (fr : BatchResult H) (country city : String)
    (h : H) : BatchResult H :=
  brSetCity fr country city (((lookupD (brGet fr country) city).getD []) ++ [h])

structure RunState (H : Type) where
  fr : BatchResult H
  log : List (BatchResult H)
  flog : List (BatchResult H)
  diag : List (String × String)

/-- Source lines 358-362, one hotel: append it to the city list and dump the
full structure to the result file. -/
def appendStep {H : Type} (country city : String) (st : RunState H) (h : H) :
    RunState H :=
  let fr := brAppendHotel st.fr country city h
  { st with fr := fr, log := st.log ++ [fr] }

/-- Source lines 352-365, one city: `fetch` stands for the composite
`fetch_listings` + `drill_listings` step, whose uncaught exceptions are the
error case.  On success the city entry is created empty and each hotel is
appended, the full structure being dumped to the result file after every
append; on failure only the diagnostic line is printed. -/
def processCity {H : Type} (fetch : String → String → Except String (List H))
    (country : String) (st : RunState H) (city : String) : RunState H :=
  match fetch country city with
  | .error _ => { st with diag := st.diag ++ [(country, city)] }
  | .ok hotels =>
    hotels.foldl (appendStep country city)
      { st with fr := brSetCity st.fr country city [] }

/-- Source lines 350-368, one country: create the empty country dict, process
the cities in order, then dump the full structure to `final_result.json`. -/
def processCountry {H : Type} (fetch : String → String → Except String (List H))
    (st : RunState H) (p : String × List String) : RunState H :=
  let st2 := p.2.foldl (processCity fetch p.1) { st with fr := dictInsert st.fr p.1 [] }
  { st2 with flog := st2.flog ++ [st2.fr] }

/-- Source lines 345-368: the whole batch run over the country/city plan. -/
def run {H : Type} (countries : List (String × List String))
    (fetch : String → String → Except String (List H)) : RunState H :=
  countries.foldl (processCountry fetch) ⟨[], [], [], []⟩

def exceptIsError {ε α : Type} : Except ε α → Bool
  | .error _ => true
  | .ok _ => false

/-- The city map a country ends with: one entry per city whose fetch-and-drill
succeeded, in city order, holding the drilled hotels. -/
def expectedCity {H : Type} (fetch : String → String → Except String (List H))
    (country : String) (cities : List String) : CityMap H :=
  cities.filterMap fun city =>
    match fetch country city with
    | .ok hotels => some (city, hotels)
    | .error _ => none

/-- The final nested structure of a whole run. -/
def runExpected {H : Type} (fetch : String → String → Except String (List H))
    (countries : List (String × List String)) : BatchResult H :=
  countries.map fun p => (p.1, expectedCity fetch p.1 p.2)

/-- The failure diagnostics of a whole run, in print order. -/
def runDiag {H : Type} (fetch : String → String → Except String (List H))
    (countries : List (String × List String)) : List (String × String) :=
  countries.flatMap fun p =>
    (p.2.filter (fun c => exceptIsError (fetch p.1 c))).map (fun c => (p.1, c))

/-- Total number of hotel appends (hence of per-append persists) of a run. -/
def totalAppends {H : Type} (fetch : String → String → Except String (List H))
    (countries : List (String × List String)) : Nat :=
  (countries.map fun p => ((expectedCity fetch p.1 p.2).map (fun q => q.2.length)).sum).sum

/-- One list extends another on the right. -/
def listExtends {α : Type} (l₁ l₂ : List α) : Prop := ∃ t, l₁ ++ t = l₂

/-- Growth order on city maps: every present city entry stays present and its
hotel list is only appended to. -/
def cityLe {H : Type} (m₁ m₂ : CityMap H) : Prop :=
  ∀ c l₁, lookupD m₁ c = some l₁ → ∃ l₂, lookupD m₂ c = some l₂ ∧ listExtends l₁ l₂

/-- Growth order on batch results: every present country entry stays present
and only grows. -/
def brLe {H : Type} (fr₁ fr₂ : BatchResult H) : Prop :=
  ∀ C m₁, lookupD fr₁ C = some m₁ → ∃ m₂, lookupD fr₂ C = some m₂ ∧ cityLe m₁ m₂

/-- The snapshot list is a growth chain ending below the final structure. -/
def ChainLe {H : Type} : List (BatchResult H) → BatchResult H → Prop
  | [], _ => True
  | [s], fr => brLe s fr
  | s :: t :: rest, fr => brLe s t ∧ ChainLe (t :: rest) fr

/-! ## Exception propagation through the paginators (source lines 108-110 and
265-267)

An `async for` over `concurrent_scrape` stops at the first page whose fetch
or extraction raised; nothing is returned past that point. -/

/-- Search-page variant: the merge loop of `scrape_search` run over pages
that may each have failed; stops at the first error. -/
def mergePagesE {V : Type} (acc : List (String × V)) :
    List (Except String (List (String × V))) → Except String (List (String × V))
  | [] => .ok acc
  | .error e :: _ => .error e
  | .ok page :: rest => mergePagesE (dictUpdate acc (parse_search_page page)) rest

/-- Search-page data where each follow-up page fetch may fail. -/
structure SearchPageDataE (V : Type) where
  firstH1 : List Char
  firstPage : List (String × V)
  pageAtE : Nat → Except String (List (String × V))

/-- `scrape_search` with fallible follow-up fetches: any page error aborts the
whole call and propagates. -/
def scrape_searchE {V : Type} (f : SearchPageDataE V) (arrival : List Nat) :
    Except String (List (String × V)) :=
  match parse_search_total_results f.firstH1 with
  | none => .error "ParseError"
  | some _total_results => mergePagesE (parse_search_page f.firstPage) (arrival.map f.pageAtE)

/-- Review variant: `reviews.extend(parse_reviews(result))` per arriving page,
stopping at the first error. -/
def mergeReviewsE {R : Type} (acc : List R) :
    List (Except String (List R)) → Except String (List R)
  | [] => .ok acc
  | .error e :: _ => .error e
  | .ok page :: rest => mergeReviewsE (acc ++ page) rest

/-- Review data where each follow-up page fetch may fail. -/
structure ReviewFetchE (R : Type) where
  firstMarkers : List Nat
  firstReviews : List R
  pageAtE : Nat → Except String (List R)

/-- `scrape_reviews` with fallible follow-up fetches. -/
def scrape_reviewsE {R : Type} (f : ReviewFetchE R) (arrival : List Nat) :
    Except String (List R) :=
  match pythonMaxNat f.firstMarkers with
  | none => .error "ValueError"
  | some _total_pages => mergeReviewsE f.firstReviews (arrival.map f.pageAtE)

/-! ## Concrete sample data used by the witnesses -/

def c1SampleFetch : SearchPageData Nat :=
  ⟨"2 properties found".toList, [("a", 0), ("b", 1)], fun _ => []⟩

def c2SampleFetch : SearchPageData Nat :=
  ⟨"3,045 properties found".toList, [("a", 0)], fun _ => [("b", 1)]⟩

def c3SampleFetch : SearchPageData Nat :=
  ⟨"30 properties found".toList, [("a", 0), ("k", 5)], fun _ => [("k", 7), ("b", 1)]⟩

def c4SampleUrls : List String := (List.range 12).map toString

def c6GoodBody : List Char :=
  csrfMarker ++ [quoteChar] ++ "tok".toList ++ [quoteChar]
  ++ aidMarker ++ [quoteChar] ++ "304".toList ++ [quoteChar]
  ++ sidMarker ++ [quoteChar] ++ "sid9".toList ++ [quoteChar]

def c6BadBody : List Char := csrfMarker ++ aidMarker ++ sidMarker

def c8SearchSample : SearchPageDataE Nat :=
  ⟨"30 properties found".toList, [("a", 0)], fun _ => .error "FetchError"⟩

def c8ReviewSample : ReviewFetchE Nat := ⟨[2], [1], fun _ => .error "FetchError"⟩

def c9SampleFetch : ReviewFetch Nat := ⟨[3, 1, 2], [10], fun _ => [20]⟩

def sampleCountries : List (String × List String) := [("X", ["a", "b"]), ("Y", ["c"])]

def sampleBatchFetch : String → String → Except String (List Nat) :=
  fun _ city => if city == "a" then .error "FetchError" else .ok [1, 2]

/-! ## Theorems: dict model -/

theorem lookupD_dictInsert_self {V : Type} (d : List (String × V)) (k : String)
    (v : V) : lookupD (dictInsert d k v) k = some v := by
  induction d with
  | nil => simp [dictInsert, lookupD]
  | cons p rest ih =>
    by_cases h : p.1 = k
    · simp [dictInsert, lookupD, h]
    · simp only [dictInsert, lookupD, beq_iff_eq, h, if_false]
      simpa [lookupD, h] using ih

theorem lookupD_dictInsert_ne {V : Type} (d : List (String × V)) (k k' : String)
    (v : V) (hne : k' ≠ k) : lookupD (dictInsert d k v) k' = lookupD d k' := by
  induction d with
  | nil => simp [dictInsert, lookupD, Ne.symm hne]
  | cons p rest ih =>
    by_cases h : p.1 = k
    · simp only [dictInsert, beq_iff_eq, h, if_true, lookupD]
      have : ¬ (k = k') := fun h2 => hne h2.symm
      simp [this, h]
    · simp only [dictInsert, beq_iff_eq, h, if_false, lookupD]
      by_cases h2 : p.1 = k'
      · simp [h2]
      · simp [h2, ih]

theorem dictInsert_dictInsert {V : Type} (d : List (String × V)) (k : String)
    (v w : V) : dictInsert (dictInsert d k v) k w = dictInsert d k w := by
  induction d with
  | nil => simp [dictInsert]
  | cons p rest ih =>
    by_cases h : p.1 = k
    · simp [dictInsert, h]
    · simp [dictInsert, h, ih]

theorem dictInsert_of_lookupD_none {V : Type} (d : List (String × V))
    (k : String) (v : V) (h : lookupD d k = none) :
    dictInsert d k v = d ++ [(k, v)] := by
  induction d with
  | nil => simp [dictInsert]
  | cons p rest ih =>
    by_cases hk : p.1 = k
    · simp [lookupD, hk] at h
    · simp only [lookupD, beq_iff_eq, hk, if_false] at h
      simp [dictInsert, hk, ih h]

theorem lookupD_append_some {V : Type} (d₁ d₂ : List (String × V)) (k : String)
    (v : V) (h : lookupD d₁ k = some v) : lookupD (d₁ ++ d₂) k = some v := by
  induction d₁ with
  | nil => simp [lookupD] at h
  | cons p rest ih =>
    by_cases hk : p.1 = k
    · simp only [lookupD, beq_iff_eq, hk, if_true] at h ⊢
      exact h
    · simp only [lookupD, beq_iff_eq, hk, if_false] at h ⊢
      simpa [List.cons_append, lookupD, hk] using ih h

theorem lookupD_append_none {V : Type} (d₁ d₂ : List (String × V)) (k : String)
    (h : lookupD d₁ k = none) : lookupD (d₁ ++ d₂) k = lookupD d₂ k := by
  induction d₁ with
  | nil => simp
  | cons p rest ih =>
    by_cases hk : p.1 = k
    · simp [lookupD, hk] at h
    · simp only [lookupD, beq_iff_eq, hk, if_false] at h
      simpa [List.cons_append, lookupD, hk] using ih h

theorem lookupD_eq_none_of_not_mem {V : Type} (d : List (String × V))
    (k : String) (h : k ∉ d.map Prod.fst) : lookupD d k = none := by
  induction d with
  | nil => rfl
  | cons p rest ih =>
    simp only [List.map_cons, List.mem_cons, not_or] at h
    simp [lookupD, Ne.symm h.1, ih h.2]

theorem mem_of_lookupD_some {V : Type} (d : List (String × V)) (k : String)
    (v : V) (h : lookupD d k = some v) : k ∈ d.map Prod.fst := by
  induction d with
  | nil => simp [lookupD] at h
  | cons p rest ih =>
    by_cases hk : p.1 = k
    · simp [hk]
    · simp only [lookupD, beq_iff_eq, hk, if_false] at h
      simp [ih h]

theorem dictUpdate_nil {V : Type} (d : List (String × V)) :
    dictUpdate d [] = d := rfl

theorem dictUpdate_cons {V : Type} (d : List (String × V)) (p : String × V)
    (items : List (String × V)) :
    dictUpdate d (p :: items) = dictUpdate (dictInsert d p.1 p.2) items := rfl

/-- Updating with items whose keys are fresh and pairwise distinct is the same
as appending them. -/
theorem dictUpdate_of_disjoint {V : Type} (items : List (String × V)) :
    ∀ (d : List (String × V)), (∀ p ∈ items, lookupD d p.1 = none) →
    (items.map Prod.fst).Nodup → dictUpdate d items = d ++ items := by
  induction items with
  | nil => intro d _ _; simp [dictUpdate_nil]
  | cons p rest ih =>
    intro d hfresh hnodup
    rw [dictUpdate_cons,
      dictInsert_of_lookupD_none d p.1 p.2 (hfresh p (List.mem_cons_self p rest))]
    simp only [List.map_cons, List.nodup_cons] at hnodup
    rw [ih (d ++ [(p.1, p.2)])
      (fun q hq => by
        rw [lookupD_append_none d _ _ (hfresh q (List.mem_cons_of_mem p hq))]
        have : q.1 ≠ p.1 := fun h => hnodup.1 (h ▸ List.mem_map_of_mem Prod.fst hq)
        simp [lookupD, Ne.symm this])
      hnodup.2]
    simp

theorem dictInsert_length_le {V : Type} (d : List (String × V)) (k : String)
    (v : V) : (dictInsert d k v).length ≤ d.length + 1 := by
  induction d with
  | nil => simp [dictInsert]
  | cons p rest ih =>
    by_cases h : p.1 = k
    · simp [dictInsert, h]
    · simp only [dictInsert, beq_iff_eq, h, if_false, List.length_cons]
      omega

theorem dictUpdate_length_le {V : Type} (items : List (String × V)) :
    ∀ d : List (String × V), (dictUpdate d items).length ≤ d.length + items.length := by
  induction items with
  | nil => intro d; simp [dictUpdate_nil]
  | cons p rest ih =>
    intro d
    rw [dictUpdate_cons]
    calc (dictUpdate (dictInsert d p.1 p.2) rest).length
        ≤ (dictInsert d p.1 p.2).length + rest.length := ih _
      _ ≤ d.length + 1 + rest.length := by
          have := dictInsert_length_le d p.1 p.2; omega
      _ = d.length + (p :: rest).length := by simp; omega

theorem dictInsert_fst_mem {V : Type} (d : List (String × V)) (k a : String)
    (v : V) (h : a ∈ (dictInsert d k v).map Prod.fst) :
    a ∈ d.map Prod.fst ∨ a = k := by
  induction d with
  | nil => simpa [dictInsert] using h
  | cons p rest ih =>
    by_cases hk : p.1 = k
    · simp only [dictInsert, beq_iff_eq, hk, if_true, List.map_cons,
        List.mem_cons] at h
      rcases h with h | h
      · right; exact h
      · left; simp [h]
    · simp only [dictInsert, beq_iff_eq, hk, if_false, List.map_cons,
        List.mem_cons] at h
      rcases h with h | h
      · left; simp [h]
      · rcases ih h with h2 | h2
        · left; simp [h2]
        · right; exact h2

theorem dictInsert_fst_nodup {V : Type} (d : List (String × V)) (k : String)
    (v : V) (h : (d.map Prod.fst).Nodup) :
    ((dictInsert d k v).map Prod.fst).Nodup := by
  induction d with
  | nil => simp [dictInsert]
  | cons p rest ih =>
    simp only [List.map_cons, List.nodup_cons] at h
    by_cases hk : p.1 = k
    · simp only [dictInsert, beq_iff_eq, hk, if_true, List.map_cons,
        List.nodup_cons]
      exact ⟨hk ▸ h.1, h.2⟩
    · simp only [dictInsert, beq_iff_eq, hk, if_false, List.map_cons,
        List.nodup_cons]
      refine ⟨fun hmem => ?_, ih h.2⟩
      rcases dictInsert_fst_mem rest k p.1 v hmem with h2 | h2
      · exact h.1 h2
      · exact hk h2

theorem dictUpdate_fst_nodup {V : Type} (items : List (String × V)) :
    ∀ d : List (String × V), (d.map Prod.fst).Nodup →
    ((dictUpdate d items).map Prod.fst).Nodup := by
  induction items with
  | nil => intro d h; simpa [dictUpdate_nil] using h
  | cons p rest ih =>
    intro d h
    rw [dictUpdate_cons]
    exact ih _ (dictInsert_fst_nodup d p.1 p.2 h)

theorem lookupD_dictUpdate {V : Type} (items : List (String × V)) :
    ∀ (d : List (String × V)) (k : String),
    lookupD (dictUpdate d items) k =
      match pageLast k items with
      | some w => some w
      | none => lookupD d k := by
  induction items with
  | nil => intro d k; simp [dictUpdate_nil, pageLast]
  | cons q rest ih =>
    intro d k
    rw [dictUpdate_cons, ih]
    cases hrest : pageLast k rest with
    | some w => simp [pageLast, hrest]
    | none =>
      by_cases hk : q.1 = k
      · simp [pageLast, hrest, hk, lookupD_dictInsert_self]
      · simp [pageLast, hrest, hk,
          lookupD_dictInsert_ne d q.1 k q.2 (fun h => hk h.symm)]

theorem pageLast_eq_lookupD {V : Type} (d : List (String × V)) (k : String)
    (h : (d.map Prod.fst).Nodup) : pageLast k d = lookupD d k := by
  induction d with
  | nil => rfl
  | cons q rest ih =>
    simp only [List.map_cons, List.nodup_cons] at h
    cases hrest : pageLast k rest with
    | some w =>
      have hlook : lookupD rest k = some w := (ih h.2) ▸ hrest
      have hk : q.1 ≠ k := by
        intro hqk
        exact h.1 (hqk ▸ mem_of_lookupD_some rest k w hlook)
      simp [pageLast, hrest, lookupD, hk, hlook]
    | none =>
      have hlook : lookupD rest k = none := (ih h.2) ▸ hrest
      by_cases hk : q.1 = k
      · simp [pageLast, hrest, lookupD, hk]
      · simp [pageLast, hrest, lookupD, hk, hlook]

/-! ## Theorems: range arithmetic -/

theorem pythonRange_length (start stop step : Nat) :
    (pythonRange start stop step).length = ceilDiv (stop - start) step := by
  simp [pythonRange]

theorem mem_pythonRange {start stop step x : Nat} :
    x ∈ pythonRange start stop step ↔
      ∃ i, i < ceilDiv (stop - start) step ∧ x = start + step * i := by
  simp only [pythonRange, List.mem_map, List.mem_range]
  constructor
  · rintro ⟨i, hi, rfl⟩; exact ⟨i, hi, rfl⟩
  · rintro ⟨i, hi, rfl⟩; exact ⟨i, hi, rfl⟩

theorem start_le_of_mem_pythonRange {start stop step x : Nat}
    (h : x ∈ pythonRange start stop step) : start ≤ x := by
  rcases mem_pythonRange.mp h with ⟨i, _, rfl⟩
  exact Nat.le_add_right start (step * i)

theorem ceilDiv_eq_zero {a b : Nat} (h : a = 0) : ceilDiv a b = 0 := by
  subst h
  unfold ceilDiv
  cases b with
  | zero => simp
  | succ n => exact Nat.div_eq_of_lt (by omega)

theorem ceilDiv_pos_iff {a b : Nat} (hb : 0 < b) : 0 < ceilDiv a b ↔ 0 < a := by
  unfold ceilDiv
  constructor
  · intro h
    by_contra hc
    have ha : a = 0 := by omega
    rw [ha] at h
    have : (0 + b - 1) / b = 0 := Nat.div_eq_of_lt (by omega)
    omega
  · intro h
    have hble : b ≤ a + b - 1 := by omega
    have h2 : b / b ≤ (a + b - 1) / b := Nat.div_le_div_right hble
    rwa [Nat.div_self hb] at h2

/-- Ceiling division peels off one step: for positive `a`,
`⌈a / b⌉ = ⌈(a - b) / b⌉ + 1`. -/
theorem ceilDiv_sub_step {a b : Nat} (hb : 0 < b) (ha : 0 < a) :
    ceilDiv a b = ceilDiv (a - b) b + 1 := by
  unfold ceilDiv
  by_cases hab : a ≤ b
  · have h1 : a - b = 0 := by omega
    rw [h1]
    have h2 : (0 + b - 1) / b = 0 := Nat.div_eq_of_lt (by omega)
    rw [h2]
    have h3 : a + b - 1 = (a - 1) + b := by omega
    rw [h3, Nat.add_div_right _ hb, Nat.div_eq_of_lt (by omega)]
  · have h3 : a + b - 1 = (a - b + b - 1) + b := by omega
    rw [h3, Nat.add_div_right _ hb]

theorem ceilDiv_sub_self {a b : Nat} (hb : 0 < b) :
    ceilDiv (a - b) b = ceilDiv a b - 1 := by
  by_cases ha : 0 < a
  · have := ceilDiv_sub_step hb ha
    omega
  · have h0 : a = 0 := by omega
    rw [ceilDiv_eq_zero (by omega), ceilDiv_eq_zero h0]

/-- Membership in a step-1 range is just an interval constraint. -/
theorem mem_pythonRange_one {start stop x : Nat} :
    x ∈ pythonRange start stop 1 ↔ start ≤ x ∧ x < stop := by
  rw [mem_pythonRange]
  have hceil : ceilDiv (stop - start) 1 = stop - start := by
    unfold ceilDiv; omega
  rw [hceil]
  constructor
  · rintro ⟨i, hi, rfl⟩; omega
  · rintro ⟨h1, h2⟩; exact ⟨x - start, by omega, by omega⟩

/-! ## Theorems: search pagination -/

theorem parse_search_total_results_le {h1 : List Char} {t : Nat}
    (h : parse_search_total_results h1 = some t) : t ≤ 50 := by
  unfold parse_search_total_results at h
  cases hf : findCount h1 with
  | none => simp [hf] at h
  | some ds =>
    simp only [hf, Option.map_some', Option.some.injEq] at h
    split at h <;> omega

/-- With the 50-hotel cap and a page size of 25 there is at most one follow-up
page; when the capped total exceeds 25 the offsets are exactly `[25]`. -/
theorem searchOffsets_eq_single {t : Nat} (h1 : 25 < t) (h2 : t ≤ 50) :
    searchOffsets t = [25] := by
  unfold searchOffsets pythonRange
  have : ceilDiv (t - 25) 25 = 1 := by
    unfold ceilDiv
    exact Nat.div_eq_of_lt_le (by omega) (by omega)
  rw [this]
  rfl

/-- When the capped total is at most 25 there are no follow-up pages. -/
theorem searchOffsets_eq_nil {t : Nat} (h : t ≤ 25) : searchOffsets t = [] := by
  unfold searchOffsets pythonRange
  rw [ceilDiv_eq_zero (by omega)]
  rfl

theorem parse_search_page_of_nodup {V : Type} (items : List (String × V))
    (h : (items.map Prod.fst).Nodup) : parse_search_page items = items := by
  unfold parse_search_page
  rw [dictUpdate_of_disjoint items [] (fun p _ => rfl) h]
  simp

theorem dictUpdate_fold_append {V : Type} (pages : List (List (String × V))) :
    ∀ acc : List (String × V),
    ((acc ++ pages.flatten).map Prod.fst).Nodup →
    pages.foldl (fun a page => dictUpdate a (parse_search_page page)) acc =
      acc ++ pages.flatten := by
  induction pages with
  | nil => intro acc _; simp
  | cons p ps ih =>
    intro acc h
    rw [List.flatten_cons] at h
    have h' := h
    rw [show acc ++ (p ++ ps.flatten) = (acc ++ p) ++ ps.flatten by
      simp [List.append_assoc]] at h'
    simp only [List.map_append, List.nodup_append] at h
    have hpnodup : (p.map Prod.fst).Nodup := h.2.1.1
    have hfresh : ∀ q ∈ p, lookupD acc q.1 = none := by
      intro q hq
      refine lookupD_eq_none_of_not_mem acc q.1 (fun hmem => ?_)
      exact h.2.2 hmem (List.mem_append_left _ (List.mem_map_of_mem Prod.fst hq))
    rw [List.foldl_cons, parse_search_page_of_nodup p hpnodup,
      dictUpdate_of_disjoint p acc hfresh hpnodup, ih (acc ++ p) h',
      List.flatten_cons, List.append_assoc]

theorem scrape_search_from_eq_append {V : Type} (first : List (String × V))
    (pages : List (List (String × V)))
    (h : ((first ++ pages.flatten).map Prod.fst).Nodup) :
    scrape_search_from first pages = first ++ pages.flatten := by
  unfold scrape_search_from
  rw [parse_search_page_of_nodup first (by
    simp only [List.map_append, List.nodup_append] at h
    exact h.1)]
  exact dictUpdate_fold_append pages first h

/-- CLAIM C1: for every total count and page size the paginator issues exactly
ceil(totalCount / pageSize) - 1 follow-up requests (offset 0, the first page,
is never among them), and when the per-item keys across the first page and all
follow-up pages are distinct and number `total` in all, the merged dict holds
exactly `total` distinct keys, whatever the arrival order of the concurrent
page fetches. -/
theorem scrape_search_follow_up_count_and_distinct_keys
    (pageSize totalCount : Nat) (hp : 0 < pageSize)
    (V : Type) (f : SearchPageData V) (total : Nat) (arrival : List Nat)
    (hparse : parse_search_total_results f.firstH1 = some total)
    (harr : arrival.Perm (searchOffsets total))
    (hlen : (f.firstPage ++ (searchOffsets total).flatMap f.pageAt).length = total)
    (hnodup : ((f.firstPage ++ (searchOffsets total).flatMap f.pageAt).map Prod.fst).Nodup) :
    (pythonRange pageSize totalCount pageSize).length = ceilDiv totalCount pageSize - 1
    ∧ searchOffsets total = pythonRange 25 total 25
    ∧ 0 ∉ searchOffsets total
    ∧ ∃ merged, scrape_search f arrival = some merged
        ∧ merged.length = total ∧ (merged.map Prod.fst).Nodup := by
  refine ⟨?_, rfl, ?_, ?_⟩
  · rw [pythonRange_length, ceilDiv_sub_self hp]
  · intro hmem
    have h25 : (25 : Nat) ≤ 0 :=
      start_le_of_mem_pythonRange (show (0 : Nat) ∈ pythonRange 25 total 25 from hmem)
    omega
  · have hflat : (arrival.map f.pageAt).flatten = arrival.flatMap f.pageAt := by
      simp [List.flatMap_def]
    have hperm : (f.firstPage ++ arrival.flatMap f.pageAt).Perm
        (f.firstPage ++ (searchOffsets total).flatMap f.pageAt) :=
      List.Perm.append_left _ (List.Perm.flatMap_right f.pageAt harr)
    have hnodup' : ((f.firstPage ++ arrival.flatMap f.pageAt).map Prod.fst).Nodup :=
      ((hperm.map Prod.fst).nodup_iff).mpr hnodup
    refine ⟨f.firstPage ++ arrival.flatMap f.pageAt, ?_, ?_, hnodup'⟩
    · simp only [scrape_search, hparse]
      rw [scrape_search_from_eq_append f.firstPage (arrival.map f.pageAt)
        (by rw [hflat]; exact hnodup'), hflat]
    · rw [hperm.length_eq, hlen]

/-- Witness for C1 at a concrete search: heading text "2 properties found",
two preview items on the first page, no follow-up pages; the count identity is
also instantiated at totalCount 100, pageSize 25. -/
theorem scrape_search_follow_up_count_and_distinct_keys_witness :
    (0 < 25
      ∧ parse_search_total_results c1SampleFetch.firstH1 = some 2
      ∧ ([] : List Nat).Perm (searchOffsets 2)
      ∧ (c1SampleFetch.firstPage ++ (searchOffsets 2).flatMap c1SampleFetch.pageAt).length = 2
      ∧ ((c1SampleFetch.firstPage ++ (searchOffsets 2).flatMap c1SampleFetch.pageAt).map Prod.fst).Nodup)
    ∧ ((pythonRange 25 100 25).length = ceilDiv 100 25 - 1
      ∧ searchOffsets 2 = pythonRange 25 2 25
      ∧ 0 ∉ searchOffsets 2
      ∧ ∃ merged, scrape_search c1SampleFetch [] = some merged
          ∧ merged.length = 2 ∧ (merged.map Prod.fst).Nodup) :=
  ⟨⟨by decide, by decide, by decide, by decide, by decide⟩,
    scrape_search_follow_up_count_and_distinct_keys 25 100 (by decide) Nat
      c1SampleFetch 2 [] (by decide) (by decide) (by decide) (by decide)⟩

theorem parse_search_page_length_le {V : Type} (items : List (String × V)) :
    (parse_search_page items).length ≤ items.length := by
  unfold parse_search_page
  simpa using dictUpdate_length_le items []

/-- CLAIM C2: a results marker reporting more than 50 properties is capped at
50; in particular the heading "3,045 properties found" parses to 50, the
paginator then fetches exactly one additional page, at offset 25, and with at
most 25 previews per page the merged preview count is at most 50. -/
theorem search_total_capped_scenario
    (h1 : List Char) (ds : List Char)
    (hfind : findCount h1 = some ds)
    (hbig : 50 < digitsToNat (ds.filter (fun c => c ≠ commaChar)))
    (V : Type) (f : SearchPageData V) (arrival : List Nat)
    (hparse : parse_search_total_results f.firstH1 = some 50)
    (harr : arrival.Perm (searchOffsets 50))
    (hfirst : f.firstPage.length ≤ 25)
    (hpages : ∀ o, (f.pageAt o).length ≤ 25) :
    parse_search_total_results h1 = some 50
    ∧ parse_search_total_results ("3,045 properties found".toList) = some 50
    ∧ searchOffsets 50 = [25]
    ∧ ∃ merged, scrape_search f arrival = some merged ∧ merged.length ≤ 50 := by
  have hsingle : searchOffsets 50 = [25] := searchOffsets_eq_single (by omega) (by omega)
  refine ⟨?_, by decide, hsingle, ?_⟩
  · unfold parse_search_total_results
    rw [hfind, Option.map_some', if_pos hbig]
  · have harr' : arrival = [25] := by
      rw [hsingle] at harr
      exact harr.eq_singleton
    refine ⟨scrape_search_from f.firstPage (arrival.map f.pageAt), ?_, ?_⟩
    · simp only [scrape_search, hparse]
    · rw [harr']
      show (scrape_search_from f.firstPage [f.pageAt 25]).length ≤ 50
      unfold scrape_search_from
      simp only [List.foldl_cons, List.foldl_nil]
      calc (dictUpdate (parse_search_page f.firstPage)
              (parse_search_page (f.pageAt 25))).length
          ≤ (parse_search_page f.firstPage).length
            + (parse_search_page (f.pageAt 25)).length :=
            dictUpdate_length_le _ _
        _ ≤ 25 + 25 := by
            have ha := parse_search_page_length_le f.firstPage
            have hb := parse_search_page_length_le (f.pageAt 25)
            have hc := hpages 25
            omega
        _ = 50 := rfl

/-- Witness for C2: the sample fetch whose heading claims 3,045 properties,
with one preview on each of the two pages. -/
theorem search_total_capped_scenario_witness :
    (findCount ("3,045 properties found".toList) = some ("3,045".toList)
      ∧ 50 < digitsToNat (("3,045".toList).filter (fun c => c ≠ commaChar))
      ∧ parse_search_total_results c2SampleFetch.firstH1 = some 50
      ∧ [25].Perm (searchOffsets 50)
      ∧ c2SampleFetch.firstPage.length ≤ 25)
    ∧ (parse_search_total_results ("3,045 properties found".toList) = some 50
      ∧ searchOffsets 50 = [25]
      ∧ ∃ merged, scrape_search c2SampleFetch [25] = some merged ∧ merged.length ≤ 50) :=
  ⟨⟨by decide, by decide, by decide, by decide, by decide⟩,
    by
      have h := search_total_capped_scenario ("3,045 properties found".toList)
        ("3,045".toList) (by decide) (by decide) Nat c2SampleFetch [25]
        (by decide) (by decide) (by decide) (fun o => by simp [c2SampleFetch])
      exact ⟨h.2.1, h.2.2.1, h.2.2.2⟩⟩

/-- CLAIM C3: under the hard 50-cap the paginator has at most one follow-up
page, so merging is deterministic: for every completion order of the
concurrent fetches the result equals the page-order merge, and a key occurring
on the later (offset 25) page ends with the value that page assigns last to
it, even when the first page also holds the key: last write, in page order,
wins, independently of the completion order. -/
theorem search_merge_last_write_wins
    (V : Type) (f : SearchPageData V) (total : Nat) (arrival : List Nat)
    (k : String) (v : V)
    (hparse : parse_search_total_results f.firstH1 = some total)
    (h25 : 25 < total)
    (harr : arrival.Perm (searchOffsets total))
    (hlast : pageLast k (f.pageAt 25) = some v) :
    scrape_search f arrival = scrape_search f (searchOffsets total)
    ∧ ∃ merged, scrape_search f arrival = some merged ∧ lookupD merged k = some v := by
  have hle := parse_search_total_results_le hparse
  have hsingle : searchOffsets total = [25] := searchOffsets_eq_single h25 hle
  have harr' : arrival = [25] := by rw [hsingle] at harr; exact harr.eq_singleton
  subst harr'
  refine ⟨by rw [hsingle], ?_⟩
  simp only [scrape_search, hparse]
  refine ⟨_, rfl, ?_⟩
  show lookupD (scrape_search_from f.firstPage [f.pageAt 25]) k = some v
  unfold scrape_search_from
  simp only [List.foldl_cons, List.foldl_nil]
  rw [lookupD_dictUpdate]
  have hnodup : ((parse_search_page (f.pageAt 25)).map Prod.fst).Nodup :=
    dictUpdate_fst_nodup (f.pageAt 25) [] (by simp)
  rw [pageLast_eq_lookupD _ k hnodup]
  have hlook : lookupD (parse_search_page (f.pageAt 25)) k = some v := by
    unfold parse_search_page
    rw [lookupD_dictUpdate, hlast]
  rw [hlook]

/-- Witness for C3: heading "30 properties found", the key "k" on both pages
with first-page value 5 and follow-up value 7; the merge keeps 7. -/
theorem search_merge_last_write_wins_witness :
    (parse_search_total_results c3SampleFetch.firstH1 = some 30
      ∧ 25 < 30
      ∧ [25].Perm (searchOffsets 30)
      ∧ pageLast "k" (c3SampleFetch.pageAt 25) = some 7)
    ∧ (scrape_search c3SampleFetch [25] = scrape_search c3SampleFetch (searchOffsets 30)
      ∧ ∃ merged, scrape_search c3SampleFetch [25] = some merged
          ∧ lookupD merged "k" = some 7) :=
  ⟨⟨by decide, by decide, by decide, by decide⟩,
    search_merge_last_write_wins Nat c3SampleFetch 30 [25] "k" 7
      (by decide) (by decide) (by decide) (by decide)⟩

theorem create_nested_list_of_nil {α : Type} (l : List α) (h : l.length = 0) :
    create_nested_list l = [] := by
  unfold create_nested_list pythonRange
  rw [h, ceilDiv_eq_zero rfl]
  rfl

/-- The list-comprehension chunking satisfies the take-5 / drop-5 recurrence. -/
theorem create_nested_list_rec {α : Type} (l : List α) (hl : 0 < l.length) :
    create_nested_list l = l.take 5 :: create_nested_list (l.drop 5) := by
  unfold create_nested_list pythonRange
  simp only [Nat.sub_zero, List.map_map, List.length_drop]
  rw [ceilDiv_sub_step (by omega) hl, List.range_succ_eq_map, List.map_cons,
    List.map_map]
  refine congrArg₂ _ (by simp) ?_
  refine List.map_congr_left (fun i _ => ?_)
  simp only [Function.comp_apply, List.drop_drop]
  have heq : 0 + 5 * Nat.succ i = 5 + (0 + 5 * i) := by omega
  rw [heq]

theorem create_nested_list_flatten_aux {α : Type} :
    ∀ (n : Nat) (l : List α), l.length ≤ n → (create_nested_list l).flatten = l := by
  intro n
  induction n with
  | zero =>
    intro l h
    have h0 : l.length = 0 := by omega
    rw [create_nested_list_of_nil l h0]
    have : l = [] := List.length_eq_zero.mp h0
    simp [this]
  | succ n ih =>
    intro l h
    by_cases h0 : l.length = 0
    · rw [create_nested_list_of_nil l h0]
      have : l = [] := List.length_eq_zero.mp h0
      simp [this]
    · rw [create_nested_list_rec l (by omega), List.flatten_cons,
        ih (l.drop 5) (by rw [List.length_drop]; omega),
        List.take_append_drop]

/-- Chunking is a partition: flattening the chunks restores the input list. -/
theorem create_nested_list_flatten {α : Type} (l : List α) :
    (create_nested_list l).flatten = l :=
  create_nested_list_flatten_aux l.length l (Nat.le_refl _)

theorem drill_listings_eq_map {H V : Type} (hotel_listings : List (String × V))
    (drill : String → H) :
    drill_listings hotel_listings drill = (hotel_listings.map Prod.fst).map drill := by
  unfold drill_listings scrape_hotels
  rw [← List.map_flatten, create_nested_list_flatten]

/-- CLAIM C4: chunking 12 urls with chunk size 5 yields contiguous chunks of
sizes [5, 5, 2] in order, and for every listing dict the flattened per-chunk
drill results (chunks in order, input url order within each chunk, as
asyncio.gather returns them) are the drill results in original url order. -/
theorem drill_listings_chunks_and_order
    (l12 : List String) (h12 : l12.length = 12)
    (H V : Type) (hotel_listings : List (String × V)) (drill : String → H) :
    (create_nested_list l12).map List.length = [5, 5, 2]
    ∧ (create_nested_list (hotel_listings.map Prod.fst)).flatten
        = hotel_listings.map Prod.fst
    ∧ drill_listings hotel_listings drill = (hotel_listings.map Prod.fst).map drill := by
  refine ⟨?_, create_nested_list_flatten _, drill_listings_eq_map _ _⟩
  have h5 : (l12.drop 5).length = 7 := by rw [List.length_drop, h12]
  have h10 : ((l12.drop 5).drop 5).length = 2 := by rw [List.length_drop, h5]
  have h15 : (((l12.drop 5).drop 5).drop 5).length = 0 := by rw [List.length_drop, h10]
  rw [create_nested_list_rec l12 (by omega),
    create_nested_list_rec (l12.drop 5) (by omega),
    create_nested_list_rec ((l12.drop 5).drop 5) (by omega),
    create_nested_list_of_nil _ h15]
  simp [List.length_take, h12, h5, h10]

/-- Witness for C4: the urls "0" to "11" chunk as [5, 5, 2], and a one-entry
listing dict drills in order. -/
theorem drill_listings_chunks_and_order_witness :
    c4SampleUrls.length = 12
    ∧ ((create_nested_list c4SampleUrls).map List.length = [5, 5, 2]
      ∧ (create_nested_list ([("u", 0)].map Prod.fst)).flatten = [("u", 0)].map Prod.fst
      ∧ drill_listings ([("u", (0 : Nat))]) (fun s => s)
          = ([("u", 0)].map Prod.fst).map (fun s => s)) :=
  ⟨by decide,
    drill_listings_chunks_and_order c4SampleUrls (by decide) String Nat
      [("u", 0)] (fun s => s)⟩

theorem matchGroup_ne_nil {l g : List Char} (h : matchGroup l = some g) :
    g ≠ [] := by
  unfold matchGroup at h
  split at h
  · simp at h
  · split at h
    · simp at h
    · rcases Option.map_eq_some'.mp h with ⟨l', _, rfl⟩
      simp

theorem matchAt_ne_nil {marker body cap : List Char}
    (h : matchAt marker body = some cap) : cap ≠ [] := by
  unfold matchAt at h
  split at h
  · split at h
    · simp at h
    · split at h
      · exact matchGroup_ne_nil h
      · simp at h
  · simp at h

theorem findTok_ne_nil {marker cap : List Char} :
    ∀ {body : List Char}, findTok marker body = some cap → cap ≠ [] := by
  intro body
  induction body with
  | nil => intro h; simp [findTok] at h
  | cons c rest ih =>
    intro h
    unfold findTok at h
    cases hm : matchAt marker (c :: rest) with
    | some cap' =>
      rw [hm] at h
      simp only [Option.some.injEq] at h
      exact h ▸ matchAt_ne_nil hm
    | none =>
      rw [hm] at h
      exact ih h

/-- CLAIM C6: token extraction fails with TokenNotFoundError as soon as any of
the three patterns (CSRF token, account id, session id) is absent from the
body, and succeeds with exactly three nonempty strings when all three match. -/
theorem extractTokens_spec (body : List Char) :
    ((findTok csrfMarker body = none ∨ findTok aidMarker body = none ∨
        findTok sidMarker body = none) →
      extractTokens body = .error "TokenNotFoundError")
    ∧ (∀ c a s, findTok csrfMarker body = some c → findTok aidMarker body = some a →
        findTok sidMarker body = some s →
        extractTokens body = .ok ⟨c, a, s⟩ ∧ c ≠ [] ∧ a ≠ [] ∧ s ≠ []) := by
  constructor
  · intro h
    unfold extractTokens
    cases hc : findTok csrfMarker body with
    | none => rfl
    | some c =>
      cases ha : findTok aidMarker body with
      | none => rfl
      | some a =>
        cases hs : findTok sidMarker body with
        | none => rfl
        | some s => rcases h with h | h | h <;> simp_all
  · intro c a s hc ha hs
    refine ⟨?_, findTok_ne_nil hc, findTok_ne_nil ha, findTok_ne_nil hs⟩
    unfold extractTokens
    rw [hc, ha, hs]

/-- Witness for C6: a body holding all three quoted tokens succeeds with the
three nonempty captures, a body holding the three bare markers but no quoted
values fails with TokenNotFoundError. -/
theorem extractTokens_spec_witness :
    (findTok csrfMarker c6GoodBody = some ("tok".toList)
      ∧ findTok aidMarker c6GoodBody = some ("304".toList)
      ∧ findTok sidMarker c6GoodBody = some ("sid9".toList)
      ∧ findTok csrfMarker c6BadBody = none)
    ∧ (extractTokens c6GoodBody = .ok ⟨"tok".toList, "304".toList, "sid9".toList⟩
      ∧ "tok".toList ≠ [] ∧ "304".toList ≠ [] ∧ "sid9".toList ≠ [])
    ∧ extractTokens c6BadBody = .error "TokenNotFoundError" :=
  ⟨⟨by decide, by decide, by decide, by decide⟩,
    (extractTokens_spec c6GoodBody).2 _ _ _ (by decide) (by decide) (by decide),
    (extractTokens_spec c6BadBody).1 (Or.inl (by decide))⟩

theorem foldl_max_mem : ∀ (xs : List Nat) (x : Nat),
    xs.foldl max x = x ∨ xs.foldl max x ∈ xs := by
  intro xs
  induction xs with
  | nil => intro x; left; rfl
  | cons a ys ih =>
    intro x
    simp only [List.foldl_cons]
    rcases ih (max x a) with h | h
    · rcases max_choice x a with hm | hm
      · left; rw [h, hm]
      · right; rw [h, hm]; exact List.mem_cons_self a ys
    · right; exact List.mem_cons_of_mem a h

theorem le_foldl_max : ∀ (xs : List Nat) (x : Nat),
    x ≤ xs.foldl max x ∧ ∀ y ∈ xs, y ≤ xs.foldl max x := by
  intro xs
  induction xs with
  | nil => intro x; exact ⟨Nat.le_refl x, by simp⟩
  | cons a ys ih =>
    intro x
    simp only [List.foldl_cons]
    have h := ih (max x a)
    refine ⟨Nat.le_trans (Nat.le_max_left x a) h.1, ?_⟩
    intro y hy
    rcases List.mem_cons.mp hy with rfl | hy
    · exact Nat.le_trans (Nat.le_max_right x y) h.1
    · exact h.2 y hy

/-- Python `max` of a nonempty list is a member above all members. -/
theorem pythonMaxNat_spec {l : List Nat} (h : l ≠ []) :
    ∃ m, pythonMaxNat l = some m ∧ m ∈ l ∧ ∀ y ∈ l, y ≤ m := by
  cases l with
  | nil => exact absurd rfl h
  | cons x xs =>
    refine ⟨xs.foldl max x, rfl, ?_, ?_⟩
    · rcases foldl_max_mem xs x with h | h
      · rw [h]; exact List.mem_cons_self _ _
      · exact List.mem_cons_of_mem _ h
    · intro y hy
      rcases List.mem_cons.mp hy with rfl | hy
      · exact (le_foldl_max xs y).1
      · exact (le_foldl_max xs x).2 y hy

/-- CLAIM C9: the review paginator takes the total page count as the maximum
of the page numbers listed in the first-page pagination markers, and the
follow-up requests cover exactly the pages 2..totalPages, each requested at
offset page * pageSize (pageSize 25). -/
theorem scrape_reviews_pagination
    (R : Type) (f : ReviewFetch R) (hm : f.firstMarkers ≠ []) :
    ∃ total_pages, pythonMaxNat f.firstMarkers = some total_pages
      ∧ total_pages ∈ f.firstMarkers
      ∧ (∀ x ∈ f.firstMarkers, x ≤ total_pages)
      ∧ (∀ page, page ∈ scrape_reviews_pages total_pages ↔
          2 ≤ page ∧ page ≤ total_pages)
      ∧ (∀ page page_size, (create_review_url page page_size).offset = page * page_size)
      ∧ ∃ out, scrape_reviews f = some out := by
  rcases pythonMaxNat_spec hm with ⟨m, hmax, hmem, hle⟩
  refine ⟨m, hmax, hmem, hle, ?_, fun page page_size => rfl, ?_⟩
  · intro page
    unfold scrape_reviews_pages
    rw [mem_pythonRange_one]
    omega
  · unfold scrape_reviews
    rw [hmax]
    exact ⟨_, rfl⟩

/-- Witness for C9: first-page markers [3, 1, 2] give 3 total pages. -/
theorem scrape_reviews_pagination_witness :
    c9SampleFetch.firstMarkers ≠ []
    ∧ ∃ total_pages, pythonMaxNat c9SampleFetch.firstMarkers = some total_pages
      ∧ total_pages ∈ c9SampleFetch.firstMarkers
      ∧ (∀ x ∈ c9SampleFetch.firstMarkers, x ≤ total_pages)
      ∧ (∀ page, page ∈ scrape_reviews_pages total_pages ↔
          2 ≤ page ∧ page ≤ total_pages)
      ∧ (∀ page page_size, (create_review_url page page_size).offset = page * page_size)
      ∧ ∃ out, scrape_reviews c9SampleFetch = some out :=
  ⟨by decide, scrape_reviews_pagination Nat c9SampleFetch (by decide)⟩

/-- CLAIM C10: the first review request is issued at offset 1 * 25 = 25, not
0: every request `scrape_reviews` issues has offset at least 25, so no request
ever carries offset 0 and the items at offsets 0..24 are never requested. -/
theorem scrape_reviews_never_offset_zero
    (total_pages : Nat) (u : ReviewUrl)
    (hu : u ∈ scrape_reviews_requests total_pages) :
    25 ≤ u.offset ∧ u.offset ≠ 0
    ∧ (scrape_reviews_requests total_pages).head? = some (create_review_url 1)
    ∧ (create_review_url 1).offset = 25 := by
  have hoff : 25 ≤ u.offset := by
    rcases List.mem_cons.mp hu with rfl | hu2
    · decide
    · rcases List.mem_map.mp hu2 with ⟨page, hp, rfl⟩
      unfold scrape_reviews_pages at hp
      have h2 : 2 ≤ page := (mem_pythonRange_one.mp hp).1
      show 25 ≤ page * 25
      calc (25 : Nat) = 1 * 25 := by omega
        _ ≤ page * 25 := Nat.mul_le_mul_right 25 (by omega)
  exact ⟨hoff, by omega, rfl, rfl⟩

/-- Witness for C10: with 3 total pages, the page 2 request sits at offset 50. -/
theorem scrape_reviews_never_offset_zero_witness :
    create_review_url 2 ∈ scrape_reviews_requests 3
    ∧ (25 ≤ (create_review_url 2).offset ∧ (create_review_url 2).offset ≠ 0
      ∧ (scrape_reviews_requests 3).head? = some (create_review_url 1)
      ∧ (create_review_url 1).offset = 25) :=
  ⟨by decide, scrape_reviews_never_offset_zero 3 (create_review_url 2) (by decide)⟩

theorem mergePagesE_error {V : Type} :
    ∀ (pages : List (Except String (List (String × V)))) (acc : List (String × V)),
    (∃ p ∈ pages, ∃ e, p = .error e) →
    ∃ e', mergePagesE acc pages = .error e' := by
  intro pages
  induction pages with
  | nil =>
    intro acc h
    rcases h with ⟨p, hp, _⟩
    simp at hp
  | cons p rest ih =>
    intro acc h
    cases p with
    | error e => exact ⟨e, rfl⟩
    | ok page =>
      rcases h with ⟨q, hq, e, rfl⟩
      rcases List.mem_cons.mp hq with heq | hq2
      · exact Except.noConfusion heq
      · exact ih _ ⟨_, hq2, e, rfl⟩

theorem mergeReviewsE_error {R : Type} :
    ∀ (pages : List (Except String (List R))) (acc : List R),
    (∃ p ∈ pages, ∃ e, p = .error e) →
    ∃ e', mergeReviewsE acc pages = .error e' := by
  intro pages
  induction pages with
  | nil =>
    intro acc h
    rcases h with ⟨p, hp, _⟩
    simp at hp
  | cons p rest ih =>
    intro acc h
    cases p with
    | error e => exact ⟨e, rfl⟩
    | ok page =>
      rcases h with ⟨q, hq, e, rfl⟩
      rcases List.mem_cons.mp hq with heq | hq2
      · exact Except.noConfusion heq
      · exact ih _ ⟨_, hq2, e, rfl⟩

/-- CLAIM C8: if any single follow-up page fetch or page-level extraction
raises during the concurrent fan-out, the whole paginate call yields an error
that propagates to the caller and no partial merged result is returned; this
holds for the search paginator and for the review paginator. -/
theorem paginate_aborts_on_page_error
    (V R : Type) (fs : SearchPageDataE V) (fr : ReviewFetchE R)
    (arrivalS arrivalR : List Nat) (oS oR : Nat) (eS eR : String)
    (hoS : oS ∈ arrivalS) (heS : fs.pageAtE oS = .error eS)
    (hoR : oR ∈ arrivalR) (heR : fr.pageAtE oR = .error eR) :
    (∃ e, scrape_searchE fs arrivalS = .error e)
    ∧ (∃ e, scrape_reviewsE fr arrivalR = .error e) := by
  constructor
  · unfold scrape_searchE
    cases hp : parse_search_total_results fs.firstH1 with
    | none => exact ⟨"ParseError", rfl⟩
    | some t =>
      exact mergePagesE_error _ _ ⟨fs.pageAtE oS, List.mem_map_of_mem _ hoS, eS, heS⟩
  · unfold scrape_reviewsE
    cases hp : pythonMaxNat fr.firstMarkers with
    | none => exact ⟨"ValueError", rfl⟩
    | some t =>
      exact mergeReviewsE_error _ _ ⟨fr.pageAtE oR, List.mem_map_of_mem _ hoR, eR, heR⟩

/-- Witness for C8: both sample paginations hold a failing page, and both
calls yield an error. -/
theorem paginate_aborts_on_page_error_witness :
    ((25 : Nat) ∈ [25] ∧ c8SearchSample.pageAtE 25 = .error "FetchError"
      ∧ (50 : Nat) ∈ [50] ∧ c8ReviewSample.pageAtE 50 = .error "FetchError")
    ∧ (∃ e, scrape_searchE c8SearchSample [25] = .error e)
    ∧ (∃ e, scrape_reviewsE c8ReviewSample [50] = .error e) :=
  ⟨⟨by decide, rfl, by decide, rfl⟩,
    paginate_aborts_on_page_error Nat Nat c8SearchSample c8ReviewSample
      [25] [50] 25 50 "FetchError" "FetchError"
      (by decide) rfl (by decide) rfl⟩

theorem listExtends_refl {α : Type} (l : List α) : listExtends l l := ⟨[], by simp⟩

theorem listExtends_trans {α : Type} {l₁ l₂ l₃ : List α}
    (h1 : listExtends l₁ l₂) (h2 : listExtends l₂ l₃) : listExtends l₁ l₃ := by
  rcases h1 with ⟨t1, rfl⟩
  rcases h2 with ⟨t2, rfl⟩
  exact ⟨t1 ++ t2, by simp⟩

theorem cityLe_refl {H : Type} (m : CityMap H) : cityLe m m :=
  fun c l₁ h => ⟨l₁, h, listExtends_refl l₁⟩

theorem cityLe_trans {H : Type} {m₁ m₂ m₃ : CityMap H}
    (h1 : cityLe m₁ m₂) (h2 : cityLe m₂ m₃) : cityLe m₁ m₃ := by
  intro c l₁ hl
  rcases h1 c l₁ hl with ⟨l₂, hl₂, he₁⟩
  rcases h2 c l₂ hl₂ with ⟨l₃, hl₃, he₂⟩
  exact ⟨l₃, hl₃, listExtends_trans he₁ he₂⟩

theorem brLe_refl {H : Type} (fr : BatchResult H) : brLe fr fr :=
  fun C m₁ h => ⟨m₁, h, cityLe_refl m₁⟩

theorem brLe_trans {H : Type} {fr₁ fr₂ fr₃ : BatchResult H}
    (h1 : brLe fr₁ fr₂) (h2 : brLe fr₂ fr₃) : brLe fr₁ fr₃ := by
  intro C m₁ hm
  rcases h1 C m₁ hm with ⟨m₂, hm₂, hc₁⟩
  rcases h2 C m₂ hm₂ with ⟨m₃, hm₃, hc₂⟩
  exact ⟨m₃, hm₃, cityLe_trans hc₁ hc₂⟩

theorem cityLe_append_right {H : Type} (m rest : CityMap H) :
    cityLe m (m ++ rest) :=
  fun c l₁ h => ⟨l₁, lookupD_append_some m rest c l₁ h, listExtends_refl l₁⟩

theorem brLe_append {H : Type} (fr rest : BatchResult H) : brLe fr (fr ++ rest) :=
  fun C m₁ h => ⟨m₁, lookupD_append_some fr rest C m₁ h, cityLe_refl m₁⟩

/-- Extending the hotel list of the one trailing city entry grows the map. -/
theorem cityLe_set_extend {H : Type} (m : CityMap H) (c : String)
    {l₁ l₂ : List H} (he : listExtends l₁ l₂) :
    cityLe (m ++ [(c, l₁)]) (m ++ [(c, l₂)]) := by
  intro c' l hl
  cases hm : lookupD m c' with
  | some l0 =>
    rw [lookupD_append_some m _ c' l0 hm] at hl
    obtain rfl := Option.some.inj hl
    exact ⟨_, lookupD_append_some m _ c' _ hm, listExtends_refl _⟩
  | none =>
    rw [lookupD_append_none m _ c' hm] at hl
    by_cases hcc : c = c'
    · subst hcc
      simp only [lookupD, beq_self_eq_true, if_true] at hl
      cases hl
      refine ⟨l₂, ?_, he⟩
      rw [lookupD_append_none m _ c hm]
      simp [lookupD]
    · simp [lookupD, hcc] at hl

/-- Two updates of the same country entry compare whenever the city maps do. -/
theorem brLe_dictInsert {H : Type} (fr0 : BatchResult H) (C : String)
    {m₁ m₂ : CityMap H} (h : cityLe m₁ m₂) :
    brLe (dictInsert fr0 C m₁) (dictInsert fr0 C m₂) := by
  intro C' m hm
  by_cases hc : C' = C
  · subst hc
    rw [lookupD_dictInsert_self] at hm
    cases hm
    exact ⟨m₂, lookupD_dictInsert_self fr0 C' m₂, h⟩
  · rw [lookupD_dictInsert_ne fr0 C C' m₁ hc] at hm
    rw [show lookupD (dictInsert fr0 C m₂) C' = lookupD fr0 C' from
      lookupD_dictInsert_ne fr0 C C' m₂ hc]
    exact ⟨m, hm, cityLe_refl m⟩

theorem ChainLe_mono {H : Type} :
    ∀ (l : List (BatchResult H)) {fr fr' : BatchResult H},
    ChainLe l fr → brLe fr fr' → ChainLe l fr'
  | [], _, _, _, _ => trivial
  | [s], _, _, h, hle => brLe_trans h hle
  | s :: t :: rest, _, _, h, hle => ⟨h.1, ChainLe_mono (t :: rest) h.2 hle⟩

theorem ChainLe_snoc {H : Type} :
    ∀ (l : List (BatchResult H)) {fr s : BatchResult H},
    ChainLe l fr → brLe fr s → ChainLe (l ++ [s]) s
  | [], _, _, _, _ => by
    show ChainLe [_] _
    exact brLe_refl _
  | [a], fr, s, h, hle => by
    show ChainLe [a, s] s
    exact ⟨brLe_trans h hle, brLe_refl s⟩
  | a :: b :: rest, fr, s, h, hle => by
    show ChainLe (a :: ((b :: rest) ++ [s])) s
    have htail := ChainLe_snoc (b :: rest) h.2 hle
    exact ⟨h.1, htail⟩

theorem brGet_dictInsert {H : Type} (fr0 : BatchResult H) (C : String)
    (m : CityMap H) : brGet (dictInsert fr0 C m) C = m := by
  unfold brGet
  rw [lookupD_dictInsert_self]
  rfl

theorem brSetCity_dictInsert {H : Type} (fr0 : BatchResult H) (C city : String)
    (m : CityMap H) (l : List H) :
    brSetCity (dictInsert fr0 C m) C city l = dictInsert fr0 C (dictInsert m city l) := by
  unfold brSetCity
  rw [brGet_dictInsert, dictInsert_dictInsert]

theorem dictInsert_append_entry {V : Type} (m : List (String × V)) (c : String)
    (x y : V) (h : lookupD m c = none) :
    dictInsert (m ++ [(c, x)]) c y = m ++ [(c, y)] := by
  induction m with
  | nil => simp [dictInsert]
  | cons p rest ih =>
    by_cases hp : p.1 = c
    · simp [lookupD, hp] at h
    · simp only [lookupD, beq_iff_eq, hp, if_false] at h
      simp [dictInsert, hp, ih h]

theorem lookupD_append_entry_self {V : Type} (m : List (String × V))
    (c : String) (x : V) (h : lookupD m c = none) :
    lookupD (m ++ [(c, x)]) c = some x := by
  rw [lookupD_append_none m _ c h]
  simp [lookupD]

/-- One hotel append on a state whose country entry ends with the city entry. -/
theorem brAppendHotel_closed {H : Type} (fr0 : BatchResult H) (C city : String)
    (m : CityMap H) (acc : List H) (h : H) (hfresh : lookupD m city = none) :
    brAppendHotel (dictInsert fr0 C (m ++ [(city, acc)])) C city h
      = dictInsert fr0 C (m ++ [(city, acc ++ [h])]) := by
  unfold brAppendHotel
  rw [brGet_dictInsert, lookupD_append_entry_self m city acc hfresh,
    brSetCity_dictInsert, dictInsert_append_entry m city acc _ hfresh]
  rfl

theorem expectedCity_cons_ok {H : Type} (fetch : String → String → Except String (List H))
    (C c : String) (cs : List String) (hs : List H) (hf : fetch C c = .ok hs) :
    expectedCity fetch C (c :: cs) = (c, hs) :: expectedCity fetch C cs := by
  simp [expectedCity, hf]

theorem expectedCity_cons_error {H : Type} (fetch : String → String → Except String (List H))
    (C c : String) (cs : List String) (e : String) (hf : fetch C c = .error e) :
    expectedCity fetch C (c :: cs) = expectedCity fetch C cs := by
  simp [expectedCity, hf]

/-- Closed form of the per-hotel append loop: starting from a state whose
country entry ends with the city entry holding `acc`, appending `hs` extends
that entry with `hs`, pushes one full snapshot per hotel, and the snapshot
chain keeps growing. -/
theorem hotelsFold_closed {H : Type} (C city : String) (fr0 : BatchResult H) :
    ∀ (hs : List H) (m : CityMap H) (acc : List H) (lg flg : List (BatchResult H))
      (dg : List (String × String)),
    lookupD m city = none →
    ChainLe lg (dictInsert fr0 C (m ++ [(city, acc)])) →
    ∃ snaps,
      hs.foldl (appendStep C city)
          ⟨dictInsert fr0 C (m ++ [(city, acc)]), lg, flg, dg⟩
        = ⟨dictInsert fr0 C (m ++ [(city, acc ++ hs)]), lg ++ snaps, flg, dg⟩
      ∧ snaps.length = hs.length
      ∧ ChainLe (lg ++ snaps) (dictInsert fr0 C (m ++ [(city, acc ++ hs)])) := by
  intro hs
  induction hs with
  | nil =>
    intro m acc lg flg dg _ hchain
    exact ⟨[], by simp, rfl, by simpa using hchain⟩
  | cons h t ih =>
    intro m acc lg flg dg hfresh hchain
    have hbr := brAppendHotel_closed fr0 C city m acc h hfresh
    have hstep : appendStep C city ⟨dictInsert fr0 C (m ++ [(city, acc)]), lg, flg, dg⟩ h
        = ⟨dictInsert fr0 C (m ++ [(city, acc ++ [h])]),
           lg ++ [dictInsert fr0 C (m ++ [(city, acc ++ [h])])], flg, dg⟩ := by
      unfold appendStep
      simp only [hbr]
    have hle : brLe (dictInsert fr0 C (m ++ [(city, acc)]))
        (dictInsert fr0 C (m ++ [(city, acc ++ [h])])) :=
      brLe_dictInsert fr0 C (cityLe_set_extend m city ⟨[h], rfl⟩)
    have hchain' := ChainLe_snoc lg hchain hle
    rcases ih m (acc ++ [h]) (lg ++ [dictInsert fr0 C (m ++ [(city, acc ++ [h])])])
        flg dg hfresh hchain' with ⟨snaps', heq, hlen, hch⟩
    rw [show acc ++ [h] ++ t = acc ++ h :: t from by simp] at heq hch
    rw [show (lg ++ [dictInsert fr0 C (m ++ [(city, acc ++ [h])])]) ++ snaps'
        = lg ++ (dictInsert fr0 C (m ++ [(city, acc ++ [h])]) :: snaps') from by simp]
      at heq hch
    refine ⟨dictInsert fr0 C (m ++ [(city, acc ++ [h])]) :: snaps',
      ?_, by simp [hlen], hch⟩
    rw [List.foldl_cons, hstep, heq]

theorem processCity_error_eq {H : Type} (fetch : String → String → Except String (List H))
    (C city : String) (st : RunState H) (e : String) (hf : fetch C city = .error e) :
    processCity fetch C st city = { st with diag := st.diag ++ [(C, city)] } := by
  unfold processCity
  rw [hf]

/-- Closed form of one successful city: the city entry is created with the
drilled hotels, one snapshot is pushed per hotel, and the chain grows. -/
theorem processCity_ok_closed {H : Type} (fetch : String → String → Except String (List H))
    (C city : String) (fr0 : BatchResult H) (m : CityMap H)
    (lg flg : List (BatchResult H)) (dg : List (String × String)) (hs : List H)
    (hf : fetch C city = .ok hs) (hfresh : lookupD m city = none)
    (hchain : ChainLe lg (dictInsert fr0 C m)) :
    ∃ snaps,
      processCity fetch C ⟨dictInsert fr0 C m, lg, flg, dg⟩ city
        = ⟨dictInsert fr0 C (m ++ [(city, hs)]), lg ++ snaps, flg, dg⟩
      ∧ snaps.length = hs.length
      ∧ ChainLe (lg ++ snaps) (dictInsert fr0 C (m ++ [(city, hs)])) := by
  have hset : brSetCity (dictInsert fr0 C m) C city []
      = dictInsert fr0 C (m ++ [(city, ([] : List H))]) := by
    rw [brSetCity_dictInsert, dictInsert_of_lookupD_none m city [] hfresh]
  have hchain0 : ChainLe lg (dictInsert fr0 C (m ++ [(city, ([] : List H))])) :=
    ChainLe_mono lg hchain (brLe_dictInsert fr0 C (cityLe_append_right m [(city, [])]))
  rcases hotelsFold_closed C city fr0 hs m [] lg flg dg hfresh hchain0
    with ⟨snaps, heq, hlen, hch⟩
  refine ⟨snaps, ?_, hlen, by simpa using hch⟩
  unfold processCity
  rw [hf]
  show hs.foldl (appendStep C city)
      ⟨brSetCity (dictInsert fr0 C m) C city [], lg, flg, dg⟩
    = ⟨dictInsert fr0 C (m ++ [(city, hs)]), lg ++ snaps, flg, dg⟩
  rw [hset]
  simpa using heq

/-- Closed form of the city loop of one country. -/
theorem citiesFold_closed {H : Type} (fetch : String → String → Except String (List H))
    (C : String) :
    ∀ (cs : List String) (fr0 : BatchResult H) (m : CityMap H)
      (lg flg : List (BatchResult H)) (dg : List (String × String)),
    cs.Nodup → (∀ c ∈ cs, lookupD m c = none) →
    ChainLe lg (dictInsert fr0 C m) →
    ∃ snaps,
      cs.foldl (processCity fetch C) ⟨dictInsert fr0 C m, lg, flg, dg⟩
        = ⟨dictInsert fr0 C (m ++ expectedCity fetch C cs), lg ++ snaps, flg,
           dg ++ (cs.filter (fun c => exceptIsError (fetch C c))).map (fun c => (C, c))⟩
      ∧ snaps.length = ((expectedCity fetch C cs).map (fun q => q.2.length)).sum
      ∧ ChainLe (lg ++ snaps) (dictInsert fr0 C (m ++ expectedCity fetch C cs)) := by
  intro cs
  induction cs with
  | nil =>
    intro fr0 m lg flg dg _ _ hchain
    refine ⟨[], by simp [expectedCity], by simp [expectedCity], ?_⟩
    simpa [expectedCity] using hchain
  | cons c cs' ih =>
    intro fr0 m lg flg dg hnodup hfresh hchain
    have hnodup' := (List.nodup_cons.mp hnodup).2
    have hcnot := (List.nodup_cons.mp hnodup).1
    cases hf : fetch C c with
    | error e =>
      have hstep := processCity_error_eq fetch C c ⟨dictInsert fr0 C m, lg, flg, dg⟩ e hf
      rcases ih fr0 m lg flg (dg ++ [(C, c)]) hnodup'
          (fun c' hc' => hfresh c' (List.mem_cons_of_mem c hc')) hchain
        with ⟨snaps, heq, hlen, hch⟩
      refine ⟨snaps, ?_, ?_, ?_⟩
      · rw [List.foldl_cons, hstep]
        show cs'.foldl (processCity fetch C)
            ⟨dictInsert fr0 C m, lg, flg, dg ++ [(C, c)]⟩ = _
        rw [heq, expectedCity_cons_error fetch C c cs' e hf,
          List.filter_cons_of_pos (by simp [exceptIsError, hf]), List.map_cons]
        simp
      · rw [expectedCity_cons_error fetch C c cs' e hf]
        exact hlen
      · rw [expectedCity_cons_error fetch C c cs' e hf]
        exact hch
    | ok hs =>
      rcases processCity_ok_closed fetch C c fr0 m lg flg dg hs hf
          (hfresh c (List.mem_cons_self c cs')) hchain
        with ⟨snaps1, heq1, hlen1, hch1⟩
      have hfresh' : ∀ c' ∈ cs', lookupD (m ++ [(c, hs)]) c' = none := by
        intro c' hc'
        rw [lookupD_append_none m _ c' (hfresh c' (List.mem_cons_of_mem c hc'))]
        have hne : c ≠ c' := fun h => hcnot (h ▸ hc')
        simp [lookupD, hne]
      rcases ih fr0 (m ++ [(c, hs)]) (lg ++ snaps1) flg dg hnodup' hfresh' hch1
        with ⟨snaps2, heq2, hlen2, hch2⟩
      rw [show (m ++ [(c, hs)]) ++ expectedCity fetch C cs'
          = m ++ ((c, hs) :: expectedCity fetch C cs') from by simp] at heq2 hch2
      rw [show (lg ++ snaps1) ++ snaps2 = lg ++ (snaps1 ++ snaps2) from by simp]
        at heq2 hch2
      refine ⟨snaps1 ++ snaps2, ?_, ?_, ?_⟩
      · rw [List.foldl_cons, heq1, heq2, expectedCity_cons_ok fetch C c cs' hs hf,
          List.filter_cons_of_neg (by simp [exceptIsError, hf])]
      · rw [expectedCity_cons_ok fetch C c cs' hs hf]
        simp [hlen1, hlen2]
      · rw [expectedCity_cons_ok fetch C c cs' hs hf]
        exact hch2

/-- Closed form of one country: its entry is appended with the expected city
map, one `final_result.json` snapshot is pushed, and the chain grows. -/
theorem processCountry_closed {H : Type} (fetch : String → String → Except String (List H))
    (st : RunState H) (C : String) (cities : List String)
    (hnodup : cities.Nodup) (hfresh : lookupD st.fr C = none)
    (hchain : ChainLe st.log st.fr) :
    ∃ snaps,
      processCountry fetch st (C, cities)
        = ⟨st.fr ++ [(C, expectedCity fetch C cities)],
           st.log ++ snaps,
           st.flog ++ [st.fr ++ [(C, expectedCity fetch C cities)]],
           st.diag ++ (cities.filter (fun c => exceptIsError (fetch C c))).map (fun c => (C, c))⟩
      ∧ snaps.length = ((expectedCity fetch C cities).map (fun q => q.2.length)).sum
      ∧ ChainLe (st.log ++ snaps) (st.fr ++ [(C, expectedCity fetch C cities)]) := by
  have hins : dictInsert st.fr C (expectedCity fetch C cities)
      = st.fr ++ [(C, expectedCity fetch C cities)] :=
    dictInsert_of_lookupD_none st.fr C _ hfresh
  have hchain0 : ChainLe st.log (dictInsert st.fr C ([] : CityMap H)) := by
    rw [dictInsert_of_lookupD_none st.fr C [] hfresh]
    exact ChainLe_mono st.log hchain (brLe_append st.fr [(C, [])])
  rcases citiesFold_closed fetch C cities st.fr [] st.log st.flog st.diag
      hnodup (fun c _ => rfl) hchain0 with ⟨snaps, heq, hlen, hch⟩
  rw [show ([] : CityMap H) ++ expectedCity fetch C cities
      = expectedCity fetch C cities from by simp, hins] at heq hch
  refine ⟨snaps, ?_, hlen, hch⟩
  unfold processCountry
  rw [show ({ st with fr := dictInsert st.fr (C, cities).1 [] } : RunState H)
      = ⟨dictInsert st.fr C [], st.log, st.flog, st.diag⟩ from rfl, heq]

/-- Closed form of the whole country loop, from any starting state fresh for
all the planned countries. -/
theorem run_foldl_closed {H : Type} (fetch : String → String → Except String (List H)) :
    ∀ (countries : List (String × List String)) (st : RunState H),
    (countries.map Prod.fst).Nodup →
    (∀ p ∈ countries, p.2.Nodup) →
    (∀ p ∈ countries, lookupD st.fr p.1 = none) →
    ChainLe st.log st.fr →
    ∃ snaps flogAdds,
      countries.foldl (processCountry fetch) st
        = ⟨st.fr ++ runExpected fetch countries, st.log ++ snaps,
           st.flog ++ flogAdds, st.diag ++ runDiag fetch countries⟩
      ∧ snaps.length = totalAppends fetch countries
      ∧ flogAdds.length = countries.length
      ∧ ChainLe (st.log ++ snaps) (st.fr ++ runExpected fetch countries) := by
  intro countries
  induction countries with
  | nil =>
    intro st _ _ _ hchain
    refine ⟨[], [], ?_, rfl, rfl, ?_⟩
    · simp [runExpected, runDiag]
    · simpa [runExpected] using hchain
  | cons p ps ih =>
    intro st hnc hncs hfresh hchain
    obtain ⟨C, cities⟩ := p
    rcases processCountry_closed fetch st C cities
        (hncs (C, cities) (List.mem_cons_self _ _))
        (hfresh (C, cities) (List.mem_cons_self _ _)) hchain
      with ⟨snaps1, heq1, hlen1, hch1⟩
    have hnc2 : ((C, cities).1 ∉ ps.map Prod.fst) ∧ (ps.map Prod.fst).Nodup := by
      rw [List.map_cons] at hnc
      exact List.nodup_cons.mp hnc
    have hfresh1 : ∀ q ∈ ps,
        lookupD (st.fr ++ [(C, expectedCity fetch C cities)]) q.1 = none := by
      intro q hq
      rw [lookupD_append_none st.fr _ q.1 (hfresh q (List.mem_cons_of_mem _ hq))]
      have hne : C ≠ q.1 := by
        intro h
        refine hnc2.1 ?_
        rw [show (C, cities).1 = q.1 from h]
        exact List.mem_map_of_mem Prod.fst hq
      simp [lookupD, hne]
    rcases ih ⟨st.fr ++ [(C, expectedCity fetch C cities)], st.log ++ snaps1,
        st.flog ++ [st.fr ++ [(C, expectedCity fetch C cities)]],
        st.diag ++ (cities.filter (fun c => exceptIsError (fetch C c))).map (fun c => (C, c))⟩
        hnc2.2 (fun q hq => hncs q (List.mem_cons_of_mem _ hq)) hfresh1 hch1
      with ⟨snaps2, flog2, heq2, hlen2, hflen2, hch2⟩
    rw [show (st.fr ++ [(C, expectedCity fetch C cities)]) ++ runExpected fetch ps
        = st.fr ++ runExpected fetch ((C, cities) :: ps) from by
          simp [runExpected]] at heq2 hch2
    rw [show (st.log ++ snaps1) ++ snaps2 = st.log ++ (snaps1 ++ snaps2) from by simp]
      at heq2 hch2
    refine ⟨snaps1 ++ snaps2, (st.fr ++ [(C, expectedCity fetch C cities)]) :: flog2,
      ?_, ?_, by simp [hflen2], hch2⟩
    · rw [List.foldl_cons, heq1, heq2]
      congr 1
      · simp
      · simp [runDiag, List.flatMap_cons]
    · simp only [List.length_append, hlen1, hlen2, totalAppends, List.map_cons,
        List.sum_cons]

theorem lookupD_runExpected {H : Type} (fetch : String → String → Except String (List H)) :
    ∀ (countries : List (String × List String)), (countries.map Prod.fst).Nodup →
    ∀ p ∈ countries,
    lookupD (runExpected fetch countries) p.1 = some (expectedCity fetch p.1 p.2) := by
  intro countries
  induction countries with
  | nil => intro _ p hp; simp at hp
  | cons q qs ih =>
    intro hnc p hp
    rw [List.map_cons] at hnc
    have hn := List.nodup_cons.mp hnc
    rcases List.mem_cons.mp hp with rfl | hp2
    · simp [runExpected, lookupD]
    · have hne : q.1 ≠ p.1 := by
        intro h
        refine hn.1 ?_
        rw [h]
        exact List.mem_map_of_mem Prod.fst hp2
      show lookupD ((q.1, expectedCity fetch q.1 q.2) :: runExpected fetch qs) p.1 = _
      simp only [lookupD, beq_iff_eq, hne, if_false]
      exact ih hn.2 p hp2

theorem lookupD_expectedCity_not_mem {H : Type}
    (fetch : String → String → Except String (List H)) (C : String) :
    ∀ (cs : List String) (c : String), c ∉ cs →
    lookupD (expectedCity fetch C cs) c = none := by
  intro cs
  induction cs with
  | nil => intro c _; rfl
  | cons c' rest ih =>
    intro c hc
    have hne : c' ≠ c := by
      intro h
      refine hc ?_
      rw [← h]
      exact List.mem_cons_self c' rest
    have hrest : c ∉ rest := fun h => hc (List.mem_cons_of_mem c' h)
    cases hf : fetch C c' with
    | ok hs =>
      rw [expectedCity_cons_ok fetch C c' rest hs hf]
      simp [lookupD, hne, ih c hrest]
    | error e =>
      rw [expectedCity_cons_error fetch C c' rest e hf]
      exact ih c hrest

/-- In the expected city map of a country, a city carries exactly the result
of its own fetch: its hotels when it succeeded, no entry when it failed. -/
theorem lookupD_expectedCity {H : Type}
    (fetch : String → String → Except String (List H)) (C : String) :
    ∀ (cs : List String), cs.Nodup → ∀ c ∈ cs,
    lookupD (expectedCity fetch C cs) c
      = match fetch C c with
        | .ok hs => some hs
        | .error _ => none := by
  intro cs
  induction cs with
  | nil => intro _ c hc; simp at hc
  | cons c' rest ih =>
    intro hn c hc
    have hn2 := List.nodup_cons.mp hn
    rcases List.mem_cons.mp hc with rfl | hc2
    · cases hf : fetch C c with
      | ok hs =>
        rw [expectedCity_cons_ok fetch C c rest hs hf]
        simp [lookupD]
      | error e =>
        rw [expectedCity_cons_error fetch C c rest e hf]
        exact lookupD_expectedCity_not_mem fetch C rest c hn2.1
    · have hne : c' ≠ c := by
        intro h
        refine hn2.1 ?_
        rw [h]
        exact hc2
      cases hf : fetch C c' with
      | ok hs =>
        rw [expectedCity_cons_ok fetch C c' rest hs hf]
        simp only [lookupD, beq_iff_eq, hne, if_false]
        exact ih hn2.2 c hc2
      | error e =>
        rw [expectedCity_cons_error fetch C c' rest e hf]
        exact ih hn2.2 c hc2

theorem mem_runDiag {H : Type} (fetch : String → String → Except String (List H))
    (countries : List (String × List String))
    (p : String × List String) (hp : p ∈ countries) (c : String) (hc : c ∈ p.2)
    (he : exceptIsError (fetch p.1 c) = true) :
    (p.1, c) ∈ runDiag fetch countries := by
  unfold runDiag
  refine List.mem_flatMap.mpr ⟨p, hp, ?_⟩
  exact List.mem_map_of_mem _ (List.mem_filter.mpr ⟨hc, he⟩)

/-- CLAIM C5: a city whose listing fetch or drill raises leaves no entry under
its country in the final structure but a printed diagnostic, while the other
cities of the same country and all other countries are still processed: the
final structure holds every planned country, each mapping exactly its
successfully fetched cities to their hotels. -/
theorem run_isolates_city_failures
    (H : Type) (countries : List (String × List String))
    (fetch : String → String → Except String (List H))
    (hc : (countries.map Prod.fst).Nodup)
    (hcs : ∀ p ∈ countries, p.2.Nodup)
    (p : String × List String) (hp : p ∈ countries) (c : String) (hcity : c ∈ p.2) :
    lookupD (run countries fetch).fr p.1 = some (expectedCity fetch p.1 p.2)
    ∧ (∀ e, fetch p.1 c = .error e →
        lookupD (expectedCity fetch p.1 p.2) c = none
        ∧ (p.1, c) ∈ (run countries fetch).diag)
    ∧ (∀ hs, fetch p.1 c = .ok hs →
        lookupD (expectedCity fetch p.1 p.2) c = some hs) := by
  rcases run_foldl_closed fetch countries ⟨[], [], [], []⟩ hc hcs (fun q _ => rfl) trivial
    with ⟨snaps, fl, heq, _, _, _⟩
  have hfr : (run countries fetch).fr = runExpected fetch countries := by
    unfold run
    rw [heq]
    simp
  have hdiag : (run countries fetch).diag = runDiag fetch countries := by
    unfold run
    rw [heq]
    simp
  refine ⟨?_, ?_, ?_⟩
  · rw [hfr]
    exact lookupD_runExpected fetch countries hc p hp
  · intro e he
    refine ⟨?_, ?_⟩
    · rw [lookupD_expectedCity fetch p.1 p.2 (hcs p hp) c hcity, he]
    · rw [hdiag]
      exact mem_runDiag fetch countries p hp c hcity (by rw [he]; rfl)
  · intro hs hok
    rw [lookupD_expectedCity fetch p.1 p.2 (hcs p hp) c hcity, hok]

/-- Witness for C5: country X with failing city a and succeeding city b,
country Y with succeeding city c. -/
theorem run_isolates_city_failures_witness :
    ((sampleCountries.map Prod.fst).Nodup
      ∧ (∀ p ∈ sampleCountries, p.2.Nodup)
      ∧ ("X", ["a", "b"]) ∈ sampleCountries ∧ "a" ∈ ["a", "b"])
    ∧ (lookupD (run sampleCountries sampleBatchFetch).fr "X"
        = some (expectedCity sampleBatchFetch "X" ["a", "b"])
      ∧ (∀ e, sampleBatchFetch "X" "a" = .error e →
          lookupD (expectedCity sampleBatchFetch "X" ["a", "b"]) "a" = none
          ∧ ("X", "a") ∈ (run sampleCountries sampleBatchFetch).diag)
      ∧ (∀ hs, sampleBatchFetch "X" "a" = .ok hs →
          lookupD (expectedCity sampleBatchFetch "X" ["a", "b"]) "a" = some hs)) :=
  ⟨⟨by decide, by decide, by decide, by decide⟩,
    run_isolates_city_failures Nat sampleCountries sampleBatchFetch
      (by decide) (by decide) ("X", ["a", "b"]) (by decide) "a" (by decide)⟩

/-- CLAIM C7: during a batch run the full nested structure is written to the
result file after every single hotel append (the per-append snapshot count
equals the total number of appends), one more full-structure persist happens
after each country, and along the snapshot sequence, up to the final
structure, a city entry once written is never removed and its hotel list only
appended to (the ChainLe growth chain). -/
theorem run_persistence_invariants
    (H : Type) (countries : List (String × List String))
    (fetch : String → String → Except String (List H))
    (hc : (countries.map Prod.fst).Nodup)
    (hcs : ∀ p ∈ countries, p.2.Nodup) :
    (run countries fetch).fr = runExpected fetch countries
    ∧ (run countries fetch).log.length = totalAppends fetch countries
    ∧ (run countries fetch).flog.length = countries.length
    ∧ ChainLe (run countries fetch).log (run countries fetch).fr := by
  rcases run_foldl_closed fetch countries ⟨[], [], [], []⟩ hc hcs (fun q _ => rfl) trivial
    with ⟨snaps, fl, heq, hlen, hflen, hch⟩
  unfold run
  rw [heq]
  exact ⟨by simp, by simpa using hlen, by simpa using hflen, by simpa using hch⟩

/-- Witness for C7 on the sample plan: 2 countries, failing city a, so 4
hotel appends in all (cities b and c with 2 hotels each) and 2 country-level
persists. -/
theorem run_persistence_invariants_witness :
    ((sampleCountries.map Prod.fst).Nodup ∧ ∀ p ∈ sampleCountries, p.2.Nodup)
    ∧ ((run sampleCountries sampleBatchFetch).fr
        = runExpected sampleBatchFetch sampleCountries
      ∧ (run sampleCountries sampleBatchFetch).log.length
        = totalAppends sampleBatchFetch sampleCountries
      ∧ (run sampleCountries sampleBatchFetch).flog.length = sampleCountries.length
      ∧ ChainLe (run sampleCountries sampleBatchFetch).log
          (run sampleCountries sampleBatchFetch).fr) :=
  ⟨⟨by decide, by decide⟩,
    run_persistence_invariants Nat sampleCountries sampleBatchFetch
      (by decide) (by decide)⟩

end HotelFetch
